import Mathlib

/-
Verification of the Steam-Flow-Launcher plugin (src/main.py).

Conventions of the embedding:
* Byte buffers (the binary shortcuts.vdf content) are lists of naturals,
  each element a byte value below 256.
* Python strings are lists of characters.
* Wall-clock times (time.time(), LastPlayed) are integers counting seconds;
  the float divisions in the source, such as days = (now - lp) / 86400
  compared against 7, are embedded as the exact equivalent integer
  comparison now - lp < 7 * 86400.
* Filesystem state is an explicit oracle record (Disk) holding the results
  of os.path.exists, os.listdir and os.path.isdir.
* While-loops over a cursor are embedded with an explicit fuel argument;
  the fuel passed by the wrapper is an upper bound on the number of
  iterations (the cursor strictly increases each iteration and the loop
  stops once the cursor passes the buffer length), so the fuel never runs
  out and the embedding computes exactly what the source loop computes.
-/

set_option maxRecDepth 100000

/-- A byte buffer: a list of byte values. -/
abbrev Bytes := List Nat

/-- Python slice content[start:start+len], clamped at the end of the buffer. -/
def byteSlice (content : Bytes) (start len : Nat) : Bytes :=
  (content.drop start).take len

/-- The marker b'\x01appname\x00' from _parse_shortcuts_binary (src/main.py
line 366): type-tag byte 1, the ASCII bytes of "appname", terminator 0. -/
def appnamePattern : Bytes := [1, 97, 112, 112, 110, 97, 109, 101, 0]

/-- The marker b'\x01exe\x00' from _parse_shortcuts_binary (line 367). -/
def exePattern : Bytes := [1, 101, 120, 101, 0]

/-- One step structure of Python bytes.find(pat, i): the least index at or
past i where pat occurs in full; none models the -1 result. The fuel is an
iteration bound supplied by the wrapper findPattern below. -/
def findPatternAux (content pat : Bytes) : Nat → Nat → Option Nat
  | 0, _ => none
  | fuel + 1, i =>
    if i + pat.length ≤ content.length then
      if byteSlice content i pat.length = pat then some i
      else findPatternAux content pat fuel (i + 1)
    else none

/-- Python content.find(pat, start) (src/main.py line 381). -/
def findPattern (content pat : Bytes) (start : Nat) : Option Nat :=
  findPatternAux content pat (content.length + 1 - start) start

/-- The scan loop of _parse_shortcuts_binary (src/main.py lines 369-398),
cursor pos, one fuel unit per iteration.  Returned pairs are the raw
(appname bytes, exe bytes) fields; the derived appid
(abs(hash(appname + exe_path)) % 1000000, implementation-defined Python
hash) is not modelled, as no claim depends on it.  The branch returning []
when exePos + 5 = content.length models the IndexError raised by
content[exe_pos] there, which the enclosing try catches, keeping the pairs
already appended (exactly what the cons-accumulation produces). -/
def parseShortcutsLoop (content : Bytes) : Nat → Nat → List (Bytes × Bytes)
  | 0, _ => []
  | fuel + 1, pos =>
    if pos + 100 < content.length then
      if byteSlice content pos 9 = appnamePattern then
        if 0 < content.getD (pos + 9) 0 ∧ content.getD (pos + 9) 0 < 100 then
          match findPattern content exePattern (pos + 10 + content.getD (pos + 9) 0) with
          | some exePos =>
            if exePos + 5 < content.length then
              if 0 < content.getD (exePos + 5) 0 ∧ content.getD (exePos + 5) 0 < 500 then
                (byteSlice content (pos + 10) (content.getD (pos + 9) 0),
                  byteSlice content (exePos + 6) (content.getD (exePos + 5) 0)) ::
                  parseShortcutsLoop content fuel (pos + 10 + content.getD (pos + 9) 0 + 1)
              else parseShortcutsLoop content fuel (pos + 10 + content.getD (pos + 9) 0 + 1)
            else []
          | none => parseShortcutsLoop content fuel (pos + 10 + content.getD (pos + 9) 0 + 1)
        else parseShortcutsLoop content fuel (pos + 10)
      else parseShortcutsLoop content fuel (pos + 1)
    else []

/-- _parse_shortcuts_binary (src/main.py lines 360-403): scan the whole
buffer from position 0.  The loop runs at most content.length iterations
(pos strictly increases), so content.length + 1 fuel is never exhausted. -/
def parseShortcutsBinary (content : Bytes) : List (Bytes × Bytes) :=
  parseShortcutsLoop content (content.length + 1) 0

/-- Python bytes.decode for ASCII data: each byte below 128 is the
corresponding character.  Every byte field appearing in the concrete
buffers of this file is ASCII, where decode('utf-8', errors='ignore')
acts exactly this way. -/
def decodeBytesAscii (bs : Bytes) : String :=
  String.mk (bs.map Char.ofNat)

/-- The acceptance filter of _find_non_steam_games (src/main.py lines
317-318): a parsed pair is turned into a GameInfo record exactly when
`game.get('appname') and game.get('exe')` is truthy, that is, when both
decoded strings are nonempty.  No other condition is applied there. -/
def acceptedNonSteamPairs (decode : Bytes → String) (content : Bytes) : List (Bytes × Bytes) :=
  (parseShortcutsBinary content).filter
    (fun p => !(decode p.1).isEmpty && !(decode p.2).isEmpty)

/-- The byte suffix ".exe" (the platform native-executable suffix). -/
def exeSuffixBytes : Bytes := [46, 101, 120, 101]

/-- ASCII bytes of a string literal, for building concrete test buffers. -/
def strBytes (s : String) : Bytes := s.toList.map Char.toNat

/-- A buffer holding two well-formed marker-delimited records whose
executable paths are "a.txt" and "b.txt" (not native executables, and not
existing on any disk), followed by tail padding so both markers fall in
the scanned region. -/
def twoRecBuf : Bytes :=
  appnamePattern ++ [5] ++ strBytes "Game1" ++ exePattern ++ [5] ++ strBytes "a.txt" ++
  appnamePattern ++ [5] ++ strBytes "Game2" ++ exePattern ++ [5] ++ strBytes "b.txt" ++
  List.replicate 101 0

/-- A buffer whose single name field has length byte 0, followed by a
well-formed executable-path field and tail padding. -/
def zeroLenNameBuf : Bytes :=
  appnamePattern ++ [0] ++ exePattern ++ [5] ++ strBytes "a.exe" ++ List.replicate 101 0

/-- A zero-length name record, then a fully well-formed record. -/
def zeroThenValidBuf : Bytes :=
  appnamePattern ++ [0, 0] ++
  appnamePattern ++ [4] ++ strBytes "Game" ++ exePattern ++ [5] ++ strBytes "a.exe" ++
  List.replicate 101 0

/-- A record whose executable-path length byte is 0. -/
def zeroLenExeBuf : Bytes :=
  appnamePattern ++ [1] ++ strBytes "A" ++ exePattern ++ [0] ++ List.replicate 110 0

/-- A buffer of length 150 whose single well-formed record has its name
marker at position 50, inside the final 100 bytes of the buffer. -/
def tailRecordBuf : Bytes :=
  List.replicate 50 0 ++
  appnamePattern ++ [4] ++ strBytes "Game" ++ exePattern ++ [5] ++ strBytes "a.exe" ++
  List.replicate 75 0

/-- C1: the claim is false on the code: _parse_shortcuts_binary and
_find_non_steam_games perform no native-executable-suffix check and no
on-disk existence check; a buffer with two well-formed records yields two
accepted pairs whose paths do not end in ".exe" (the functions take no
filesystem input at all, so the result cannot depend on what exists). -/
theorem c1_counterexample :
    (acceptedNonSteamPairs decodeBytesAscii twoRecBuf).length = 2 ∧
    (acceptedNonSteamPairs decodeBytesAscii twoRecBuf).all
      (fun p => exeSuffixBytes.isSuffixOf p.2) = false := by
  constructor <;> rfl

/-- C1 (amended): a candidate pair is accepted exactly when the two
length-byte guards pass and the decoded name and path are both nonempty;
no suffix or disk-existence condition is applied, so a buffer with two
well-formed records yields those two pairs regardless of disk state. -/
theorem c1_amended :
    acceptedNonSteamPairs decodeBytesAscii twoRecBuf =
      [(strBytes "Game1", strBytes "a.txt"), (strBytes "Game2", strBytes "b.txt")] := by
  rfl

/-- C3: the claim is false on the code: a name field whose length byte is 0
fails the guard str_len > 0 (src/main.py line 375), so the candidate is
skipped entirely; no pair with an empty name is produced. -/
theorem c3_counterexample :
    parseShortcutsBinary zeroLenNameBuf = [] ∧
    ¬ ∃ p ∈ parseShortcutsBinary zeroLenNameBuf, p.1 = [] := by
  constructor
  · rfl
  · intro h
    rcases h with ⟨p, hp, _⟩
    rw [show parseShortcutsBinary zeroLenNameBuf = [] from rfl] at hp
    exact absurd hp (List.not_mem_nil p)

/-- C3 (amended): a length byte of 0 (for the name or the executable-path
field) causes that candidate to be rejected, not extracted as an empty
string; no error is raised and scanning continues, so a later well-formed
record is still extracted. -/
theorem c3_amended :
    parseShortcutsBinary zeroThenValidBuf = [(strBytes "Game", strBytes "a.exe")] ∧
    parseShortcutsBinary zeroLenExeBuf = [] := by
  constructor <;> rfl

/-- C10: the scan loop only considers marker positions pos with
pos + 100 < length: every buffer of at most 100 bytes parses to the empty
list, and the well-formed record of tailRecordBuf, whose marker sits at
position 50 of a 150-byte buffer (inside the final 100 bytes), is not
extracted, while the same buffer extended by 60 trailing bytes has the
marker outside the final 100 bytes and the record is extracted. -/
theorem c10_parser_tail_bound :
    (∀ content : Bytes, content.length ≤ 100 → parseShortcutsBinary content = []) ∧
    parseShortcutsBinary tailRecordBuf = [] ∧
    parseShortcutsBinary (tailRecordBuf ++ List.replicate 60 0) =
      [(strBytes "Game", strBytes "a.exe")] := by
  refine ⟨?_, rfl, rfl⟩
  intro content hlen
  have h : ¬ (0 + 100 < content.length) := by omega
  simp [parseShortcutsBinary, parseShortcutsLoop, h]

/-- C10 witness: the universally quantified part applied at a concrete
100-byte buffer. -/
theorem c10_parser_tail_bound_witness :
    parseShortcutsBinary (List.replicate 100 3) = [] :=
  c10_parser_tail_bound.1 (List.replicate 100 3) (by simp)

/-- GameInfo (src/main.py lines 23-33); strings are lists of characters,
times are integer epoch seconds. -/
structure GameInfo where
  name : List Char
  appid : List Char
  installPath : List Char := []
  iconPath : List Char := []
  libraryPath : List Char := []
  isSteamGame : Bool := true
  lastPlayed : Int := 0
  playtimeMinutes : Int := 0
deriving DecidableEq

instance : Inhabited GameInfo :=
  ⟨{ name := [], appid := [] }⟩

/-- Python str.lower() for the ASCII titles modelled here. -/
def lowerStr (s : List Char) : List Char := s.map Char.toLower

/-- Python str.strip(): drop leading and trailing whitespace. -/
def strTrim (s : List Char) : List Char :=
  ((s.dropWhile Char.isWhitespace).reverse.dropWhile Char.isWhitespace).reverse

/-- A word character of the regex \b boundary: alphanumeric or underscore. -/
def isWordChar (c : Char) : Bool := c.isAlphanum || c == '_'

/-- Whether position i of s holds a word character (out of range: no). -/
def wordAt (s : List Char) (i : Nat) : Bool :=
  match s.get? i with
  | some c => isWordChar c
  | none => false

/-- The regex word boundary \b at position i of s: exactly one of the two
adjacent positions holds a word character (the position before the start
and the position after the end count as non-word). -/
def boundaryAt (s : List Char) (i : Nat) : Bool :=
  (if i = 0 then false else wordAt s (i - 1)) != wordAt s i

/-- The substring q occurs in s starting at position i. -/
def matchesAt (q s : List Char) (i : Nat) : Bool :=
  decide ((s.drop i).take q.length = q)

/-- Python `query in game_name` (src/main.py line 465). -/
def containsSub (q s : List Char) : Bool :=
  (List.range (s.length + 1)).any (fun i => matchesAt q s i)

/-- re.search(r'\b' + re.escape(query) + r'\b', game_name)
(src/main.py line 462): the escaped query matched literally at some
position with a word boundary on each side. -/
def wordBoundaryMatch (q s : List Char) : Bool :=
  (List.range (s.length + 1)).any
    (fun i => matchesAt q s i && boundaryAt s i && boundaryAt s (i + q.length))

/-- The additive score of one record in search_games (src/main.py lines
451-478): the exact/startswith/word-boundary/substring ladder, then the
recency boost (float day comparisons written as exact integer second
comparisons) and the playtime boost. -/
def gameScore (now : Int) (q : List Char) (g : GameInfo) : Nat :=
  let gameName := lowerStr g.name
  let base : Nat :=
    if gameName = q then 100
    else if matchesAt q gameName 0 then 80
    else if wordBoundaryMatch q gameName then 60
    else if containsSub q gameName then 40
    else 0
  let withRecency : Nat :=
    if 0 < g.lastPlayed then
      if now - g.lastPlayed < 7 * 86400 then base + 20
      else if now - g.lastPlayed < 30 * 86400 then base + 10
      else base
    else base
  if 60 < g.playtimeMinutes then withRecency + 5 else withRecency

/-- The scored_games list built by the loop of search_games (lines
449-481): records in snapshot iteration order, paired with their score,
keeping exactly those with positive score. -/
def scoredGames (q : List Char) (games : List GameInfo) (now : Int) :
    List (GameInfo × Nat) :=
  games.filterMap (fun g =>
    if 0 < gameScore now q g then some (g, gameScore now q g) else none)

/-- Insert into a list already sorted by descending score, after every
element of strictly greater score and before everything else. -/
def insertDesc (x : GameInfo × Nat) : List (GameInfo × Nat) → List (GameInfo × Nat)
  | [] => [x]
  | y :: ys => if x.2 < y.2 then y :: insertDesc x ys else x :: y :: ys

/-- Python scored_games.sort(key=lambda x: x[1], reverse=True)
(src/main.py line 484): a stable sort by descending score.  A stable
descending sort by key is extensionally unique, so this insertion sort is
the same function as the source's Timsort call. -/
def sortDesc : List (GameInfo × Nat) → List (GameInfo × Nat)
  | [] => []
  | x :: xs => insertDesc x (sortDesc xs)

/-- search_games (src/main.py lines 442-485): empty query returns the
snapshot unscored; otherwise lowercase-and-strip the query, score, keep
positive scores, sort stably by descending score, return the records. -/
def searchGames (queryRaw : List Char) (games : List GameInfo) (now : Int) :
    List GameInfo :=
  if queryRaw = [] then games
  else
    (sortDesc (scoredGames (strTrim (lowerStr queryRaw)) games now)).map (fun p => p.1)

/-- A never-played, low-playtime record matching nothing. -/
def gPortal : GameInfo :=
  { name := String.toList "Portal", appid := String.toList "400",
    lastPlayed := 999999, playtimeMinutes := 0 }

/-- C2: the claim is false on the code: the recency and playtime boosts of
search_games are added even when the base match score is 0, so a non-empty
query matching no title still returns a recently played record (base 0,
recency boost 20). -/
theorem c2_counterexample :
    containsSub (strTrim (lowerStr (String.toList "xyz"))) (lowerStr gPortal.name) = false ∧
    searchGames (String.toList "xyz") [gPortal] 1000000 = [gPortal] := by
  constructor <;> rfl

lemma containsSub_of_matchesAt {q s : List Char} {i : Nat} (hi : i < s.length + 1)
    (h : matchesAt q s i = true) : containsSub q s = true := by
  unfold containsSub
  rw [List.any_eq_true]
  exact ⟨i, List.mem_range.mpr hi, h⟩

lemma matchesAt_self (q : List Char) : matchesAt q q 0 = true := by
  unfold matchesAt
  simp [List.take_length]

lemma gameScore_eq_zero (now : Int) (q : List Char) (g : GameInfo)
    (hc : containsSub q (lowerStr g.name) = false)
    (hlp : g.lastPlayed = 0) (hpt : g.playtimeMinutes ≤ 60) :
    gameScore now q g = 0 := by
  have hc2 : ¬ (containsSub q (lowerStr g.name) = true) := by
    rw [hc]
    exact Bool.false_ne_true
  have hEq : ¬ (lowerStr g.name = q) := by
    intro h
    apply hc2
    rw [h]
    exact containsSub_of_matchesAt (Nat.succ_pos q.length) (matchesAt_self q)
  have hStart : ¬ (matchesAt q (lowerStr g.name) 0 = true) := fun h =>
    hc2 (containsSub_of_matchesAt (Nat.succ_pos _) h)
  have hWb : ¬ (wordBoundaryMatch q (lowerStr g.name) = true) := by
    intro h
    unfold wordBoundaryMatch at h
    rw [List.any_eq_true] at h
    rcases h with ⟨i, hiMem, hMatch⟩
    rw [Bool.and_eq_true, Bool.and_eq_true] at hMatch
    exact hc2 (containsSub_of_matchesAt (List.mem_range.mp hiMem) hMatch.1.1)
  unfold gameScore
  rw [hlp]
  simp only [if_neg hEq, if_neg hStart, if_neg hWb, if_neg hc2]
  have h60 : ¬ (60 < g.playtimeMinutes) := by omega
  have h00 : ¬ ((0 : Int) < 0) := by omega
  rw [if_neg h60, if_neg h00]

lemma mem_insertDesc {z x : GameInfo × Nat} {l : List (GameInfo × Nat)} :
    z ∈ insertDesc x l ↔ z = x ∨ z ∈ l := by
  induction l with
  | nil => simp [insertDesc]
  | cons y ys ih =>
    unfold insertDesc
    by_cases h : x.2 < y.2
    · rw [if_pos h]
      simp only [List.mem_cons, ih]
      tauto
    · rw [if_neg h]
      simp only [List.mem_cons]

lemma pairwise_insertDesc {x : GameInfo × Nat} {l : List (GameInfo × Nat)}
    (h : List.Pairwise (fun a b : GameInfo × Nat => b.2 ≤ a.2) l) :
    List.Pairwise (fun a b : GameInfo × Nat => b.2 ≤ a.2) (insertDesc x l) := by
  induction l with
  | nil => simp [insertDesc]
  | cons y ys ih =>
    rw [List.pairwise_cons] at h
    unfold insertDesc
    by_cases hxy : x.2 < y.2
    · rw [if_pos hxy]
      rw [List.pairwise_cons]
      refine ⟨?_, ih h.2⟩
      intro z hz
      rcases mem_insertDesc.mp hz with hz | hz
      · rw [hz]; omega
      · exact h.1 z hz
    · rw [if_neg hxy]
      rw [List.pairwise_cons]
      refine ⟨?_, List.pairwise_cons.mpr h⟩
      intro z hz
      rcases List.mem_cons.mp hz with hz | hz
      · rw [hz]; omega
      · have := h.1 z hz; omega

lemma pairwise_sortDesc (l : List (GameInfo × Nat)) :
    List.Pairwise (fun a b : GameInfo × Nat => b.2 ≤ a.2) (sortDesc l) := by
  induction l with
  | nil => simp [sortDesc]
  | cons x xs ih => exact pairwise_insertDesc ih

lemma filter_insertDesc (s : Nat) (x : GameInfo × Nat) (l : List (GameInfo × Nat)) :
    (insertDesc x l).filter (fun p => p.2 == s) =
      ((x :: l).filter (fun p => p.2 == s)) := by
  induction l with
  | nil => rfl
  | cons y ys ih =>
    unfold insertDesc
    by_cases hxy : x.2 < y.2
    · rw [if_pos hxy]
      by_cases hx : x.2 = s
      · have hy : ¬ (y.2 = s) := by omega
        simp only [List.filter_cons, hx, hy, beq_iff_eq, if_pos, if_neg, ih]
        simp [hx, hy]
      · simp only [List.filter_cons, beq_iff_eq, ih]
        simp [hx]
    · rw [if_neg hxy]

lemma filter_sortDesc (s : Nat) (l : List (GameInfo × Nat)) :
    (sortDesc l).filter (fun p => p.2 == s) = l.filter (fun p => p.2 == s) := by
  induction l with
  | nil => rfl
  | cons x xs ih =>
    show (insertDesc x (sortDesc xs)).filter (fun p => p.2 == s) = _
    rw [filter_insertDesc]
    simp only [List.filter_cons, ih]

lemma mem_sortDesc {z : GameInfo × Nat} {l : List (GameInfo × Nat)} :
    z ∈ sortDesc l ↔ z ∈ l := by
  induction l with
  | nil => simp [sortDesc]
  | cons x xs ih =>
    show z ∈ insertDesc x (sortDesc xs) ↔ _
    rw [mem_insertDesc, ih]
    simp

/-- C2 (amended): a record whose final additive score is 0 is excluded
from the result, so every returned record has positive score; and a
non-empty query that matches no title returns the empty list provided no
record earns a recency or playtime boost (the boosts are added even to
base score 0, so a non-matching record that was recently played or has
more than 60 minutes of playtime is still returned). -/
theorem c2_amended :
    ∀ (queryRaw : List Char) (games : List GameInfo) (now : Int),
      queryRaw ≠ [] →
      (∀ g ∈ searchGames queryRaw games now,
        0 < gameScore now (strTrim (lowerStr queryRaw)) g) ∧
      ((∀ g ∈ games, containsSub (strTrim (lowerStr queryRaw)) (lowerStr g.name) = false) →
        (∀ g ∈ games, g.lastPlayed = 0) →
        (∀ g ∈ games, g.playtimeMinutes ≤ 60) →
        searchGames queryRaw games now = []) := by
  intro queryRaw games now hq
  constructor
  · intro g hg
    unfold searchGames at hg
    rw [if_neg hq] at hg
    rcases List.mem_map.mp hg with ⟨p, hp, hpg⟩
    have hmem : p ∈ scoredGames (strTrim (lowerStr queryRaw)) games now := mem_sortDesc.mp hp
    unfold scoredGames at hmem
    rcases List.mem_filterMap.mp hmem with ⟨a, _, ha⟩
    by_cases hpos : 0 < gameScore now (strTrim (lowerStr queryRaw)) a
    · rw [if_pos hpos] at ha
      have hpe : (a, gameScore now (strTrim (lowerStr queryRaw)) a) = p :=
        Option.some_inj.mp ha
      rw [← hpg, ← hpe]
      exact hpos
    · rw [if_neg hpos] at ha
      exact absurd ha (Option.noConfusion)
  · intro hc hlp hpt
    unfold searchGames
    rw [if_neg hq]
    have hscored : scoredGames (strTrim (lowerStr queryRaw)) games now = [] := by
      unfold scoredGames
      rw [List.filterMap_eq_nil_iff]
      intro g hg
      rw [gameScore_eq_zero now _ g (hc g hg) (hlp g hg) (hpt g hg)]
      rfl
    rw [hscored]
    rfl

/-- A never-played, never-matching record for the C2 witness. -/
def gNeverPlayed : GameInfo :=
  { name := String.toList "Portal", appid := String.toList "400" }

/-- C2 (amended) witness at a concrete query and snapshot. -/
theorem c2_amended_witness :
    searchGames (String.toList "xyz") [gNeverPlayed] 1000000 = [] :=
  (c2_amended (String.toList "xyz") [gNeverPlayed] 1000000 (by decide)).2
    (by intro g hg; rw [List.mem_singleton.mp hg]; rfl)
    (by intro g hg; rw [List.mem_singleton.mp hg]; rfl)
    (by intro g hg; rw [List.mem_singleton.mp hg]; norm_num [gNeverPlayed])

/-- C7: for a non-empty query, search_games returns exactly the positive
scored records sorted by descending score, sorted stably: records of equal
score keep the order of the scored list, which lists them in snapshot
iteration order. -/
theorem c7_search_sorted_stable :
    ∀ (queryRaw : List Char) (games : List GameInfo) (now : Int),
      queryRaw ≠ [] →
      searchGames queryRaw games now =
        (sortDesc (scoredGames (strTrim (lowerStr queryRaw)) games now)).map
          (fun p => p.1) ∧
      List.Pairwise (fun a b : GameInfo × Nat => b.2 ≤ a.2)
        (sortDesc (scoredGames (strTrim (lowerStr queryRaw)) games now)) ∧
      (∀ s : Nat,
        (sortDesc (scoredGames (strTrim (lowerStr queryRaw)) games now)).filter
            (fun p => p.2 == s) =
          (scoredGames (strTrim (lowerStr queryRaw)) games now).filter
            (fun p => p.2 == s)) := by
  intro queryRaw games now hq
  refine ⟨?_, pairwise_sortDesc _, fun s => filter_sortDesc s _⟩
  unfold searchGames
  rw [if_neg hq]

/-- C7 witness at a concrete query and two-record snapshot. -/
theorem c7_search_sorted_stable_witness :
    List.Pairwise (fun a b : GameInfo × Nat => b.2 ≤ a.2)
      (sortDesc (scoredGames (strTrim (lowerStr (String.toList "p")))
        [gNeverPlayed, gPortal] 1000000)) :=
  (c7_search_sorted_stable (String.toList "p") [gNeverPlayed, gPortal] 1000000
    (by decide)).2.1

/-- Lookup in the insertion-ordered association list modelling the Python
dict games_cache. -/
def cacheLookup (k : List Char) : List (List Char × GameInfo) → Option GameInfo
  | [] => none
  | kv :: rest => if kv.1 = k then some kv.2 else cacheLookup k rest

/-- Python dict assignment d[k] = v: overwrite in place when the key is
present (keeping its position, as dicts do), else append at the end. -/
def dictInsert (k : List Char) (v : GameInfo) (d : List (List Char × GameInfo)) :
    List (List Char × GameInfo) :=
  if (cacheLookup k d).isSome then
    d.map (fun kv => if kv.1 = k then (kv.1, v) else kv)
  else d ++ [(k, v)]

/-- The Steam-game phase of refresh_game_cache (src/main.py lines 417-426):
each manifest record is assigned into games_cache by appid. -/
def buildSteamCache (steamGames : List GameInfo) : List (List Char × GameInfo) :=
  steamGames.foldl (fun d g => dictInsert g.appid g d) []

/-- The full cache assembly of refresh_game_cache (lines 417-433): the
Steam phase, then each non-Steam record added only when its appid is not
already a key (line 431: `if game.appid not in self.games_cache`). -/
def buildGamesCache (steamGames nonSteamGames : List GameInfo) :
    List (List Char × GameInfo) :=
  nonSteamGames.foldl
    (fun d g => if (cacheLookup g.appid d).isSome then d else d ++ [(g.appid, g)])
    (buildSteamCache steamGames)

/-- The cache duration of 300 seconds (src/main.py line 43). -/
def cacheDuration : Int := 300

/-- The mutable state of SteamLibraryManager touched by refresh_game_cache. -/
structure CacheState where
  libraryPaths : List (List Char)
  gamesCache : List (List Char × GameInfo)
  cacheTimestamp : Int
deriving DecidableEq

/-- refresh_game_cache (src/main.py lines 405-435): return unchanged when
now - cache_timestamp < cache_duration, else rebuild the snapshot from the
scan results (passed here as inputs, since the filesystem walk is outside
this state machine) and record the timestamp.  The boolean reports whether
the re-scan body ran. -/
def refreshGameCache (st : CacheState) (now : Int) (libs : List (List Char))
    (steamGames nonSteamGames : List GameInfo) : CacheState × Bool :=
  if now - st.cacheTimestamp < cacheDuration then (st, false)
  else
    ({ libraryPaths := libs,
       gamesCache := buildGamesCache steamGames nonSteamGames,
       cacheTimestamp := now }, true)

/-- get_all_games (src/main.py lines 437-440): refresh, then return the
snapshot.  The middle component reports whether a re-scan ran. -/
def getAllGames (st : CacheState) (now : Int) (libs : List (List Char))
    (steamGames nonSteamGames : List GameInfo) :
    CacheState × Bool × List (List Char × GameInfo) :=
  ((refreshGameCache st now libs steamGames nonSteamGames).1,
   (refreshGameCache st now libs steamGames nonSteamGames).2,
   (refreshGameCache st now libs steamGames nonSteamGames).1.gamesCache)

/-- refresh_game_cache when the scan raises after the cache fields were
reset (lines 413-414) and before cache_timestamp is assigned (line 435,
the last statement of the function): the exception escapes with whatever
records were collected so far and the timestamp untouched. -/
def refreshGameCacheAborted (st : CacheState) (now : Int) (libs : List (List Char))
    (collectedSoFar : List (List Char × GameInfo)) : CacheState :=
  if now - st.cacheTimestamp < cacheDuration then st
  else
    { libraryPaths := libs, gamesCache := collectedSoFar,
      cacheTimestamp := st.cacheTimestamp }

/-- C5: a second getAll within the TTL returns the same state and the same
snapshot with no re-scan; a call at or past the TTL re-scans exactly once,
rebuilding the snapshot and stamping the time; and an aborted refresh
leaves the timestamp unchanged, because it is recorded only after the
refresh body completes. -/
theorem c5_ttl_cache :
    ∀ (st : CacheState) (now1 now2 : Int) (libs1 libs2 : List (List Char))
      (steam1 ns1 steam2 ns2 : List GameInfo)
      (collected : List (List Char × GameInfo)),
      (∀ (st1 : CacheState) (b1 : Bool) (snap1 : List (List Char × GameInfo)),
        getAllGames st now1 libs1 steam1 ns1 = (st1, b1, snap1) →
        now2 - st1.cacheTimestamp < cacheDuration →
        getAllGames st1 now2 libs2 steam2 ns2 = (st1, false, snap1)) ∧
      (cacheDuration ≤ now1 - st.cacheTimestamp →
        refreshGameCache st now1 libs1 steam1 ns1 =
          ({ libraryPaths := libs1,
             gamesCache := buildGamesCache steam1 ns1,
             cacheTimestamp := now1 }, true)) ∧
      (refreshGameCacheAborted st now1 libs1 collected).cacheTimestamp =
        st.cacheTimestamp := by
  intro st now1 now2 libs1 libs2 steam1 ns1 steam2 ns2 collected
  refine ⟨?_, ?_, ?_⟩
  · intro st1 b1 snap1 heq httl
    have h1 : (refreshGameCache st now1 libs1 steam1 ns1).1 = st1 :=
      congrArg Prod.fst heq
    have h3 : (refreshGameCache st now1 libs1 steam1 ns1).1.gamesCache = snap1 :=
      congrArg (fun t => t.2.2) heq
    rw [h1] at h3
    show ((refreshGameCache st1 now2 libs2 steam2 ns2).1,
      (refreshGameCache st1 now2 libs2 steam2 ns2).2,
      (refreshGameCache st1 now2 libs2 steam2 ns2).1.gamesCache) = (st1, false, snap1)
    rw [refreshGameCache, if_pos httl, ← h3]
  · intro h
    rw [refreshGameCache, if_neg (by omega)]
  · rw [refreshGameCacheAborted]
    split <;> rfl

/-- C5 witness: a refresh at time 1000 from a stale state, then a second
call at time 1100, inside the 300-second TTL. -/
theorem c5_ttl_cache_witness :
    getAllGames ⟨[], [], 1000⟩ 1100 [] [] [] = (⟨[], [], 1000⟩, false, []) :=
  (c5_ttl_cache ⟨[], [], 0⟩ 1000 1100 [] [] [] [] [] [] []).1
    ⟨[], [], 1000⟩ true [] (by decide) (by decide)

lemma cacheLookup_eq_none_iff (k : List Char) (d : List (List Char × GameInfo)) :
    cacheLookup k d = none ↔ k ∉ d.map Prod.fst := by
  induction d with
  | nil => simp [cacheLookup]
  | cons kv rest ih =>
    unfold cacheLookup
    by_cases h : kv.1 = k
    · simp [h]
    · simp only [if_neg h, ih, List.map_cons, List.mem_cons]
      constructor
      · intro hn hm
        rcases hm with hm | hm
        · exact h hm.symm
        · exact hn hm
      · intro hn hm
        exact hn (Or.inr hm)

lemma keys_dictInsert_nodup {k : List Char} {v : GameInfo}
    {d : List (List Char × GameInfo)} (h : (d.map Prod.fst).Nodup) :
    ((dictInsert k v d).map Prod.fst).Nodup := by
  unfold dictInsert
  by_cases hmem : (cacheLookup k d).isSome
  · rw [if_pos hmem]
    have hkeys : (d.map (fun kv => if kv.1 = k then (kv.1, v) else kv)).map Prod.fst =
        d.map Prod.fst := by
      rw [List.map_map]
      apply List.map_congr_left
      intro kv _
      by_cases hk : kv.1 = k
      · simp [hk]
      · simp [hk]
    rw [hkeys]
    exact h
  · rw [if_neg hmem]
    have hnone : cacheLookup k d = none := by
      rcases hopt : cacheLookup k d with _ | val
      · rfl
      · rw [hopt] at hmem
        exact absurd rfl hmem
    have hnotin : k ∉ d.map Prod.fst := (cacheLookup_eq_none_iff k d).mp hnone
    simp only [List.map_append, List.map_cons, List.map_nil]
    rw [List.nodup_append]
    exact ⟨h, List.nodup_singleton k, by simpa using hnotin⟩

lemma keys_buildSteamCache_nodup (steamGames : List GameInfo) :
    ((buildSteamCache steamGames).map Prod.fst).Nodup := by
  have gen : ∀ (l : List GameInfo) (d : List (List Char × GameInfo)),
      (d.map Prod.fst).Nodup →
      ((l.foldl (fun d g => dictInsert g.appid g d) d).map Prod.fst).Nodup := by
    intro l
    induction l with
    | nil => intro d hd; exact hd
    | cons g gs ih =>
      intro d hd
      exact ih (dictInsert g.appid g d) (keys_dictInsert_nodup hd)
  exact gen steamGames [] (by simp)

lemma cacheLookup_cons (k : List Char) (kv : List Char × GameInfo)
    (rest : List (List Char × GameInfo)) :
    cacheLookup k (kv :: rest) = if kv.1 = k then some kv.2 else cacheLookup k rest :=
  rfl

lemma cacheLookup_append_of_isSome {k : List Char} {d e : List (List Char × GameInfo)}
    (h : (cacheLookup k d).isSome) : cacheLookup k (d ++ e) = cacheLookup k d := by
  induction d with
  | nil => simp [cacheLookup] at h
  | cons kv rest ih =>
    rw [List.cons_append, cacheLookup_cons, cacheLookup_cons]
    by_cases hk : kv.1 = k
    · rw [if_pos hk, if_pos hk]
    · rw [if_neg hk, if_neg hk]
      apply ih
      rw [cacheLookup_cons, if_neg hk] at h
      exact h

/-- C6: the snapshot assembled by refresh_game_cache has pairwise-distinct
identifier keys, and every identifier already present after the Steam
phase looks up to the same record after the non-Steam phase: a colliding
non-Steam record is discarded and the existing record is unchanged. -/
theorem c6_identifier_unique :
    ∀ (steamGames nonSteamGames : List GameInfo),
      ((buildGamesCache steamGames nonSteamGames).map Prod.fst).Nodup ∧
      ∀ k : List Char,
        (cacheLookup k (buildSteamCache steamGames)).isSome = true →
        cacheLookup k (buildGamesCache steamGames nonSteamGames) =
          cacheLookup k (buildSteamCache steamGames) := by
  intro steamGames nonSteamGames
  have step : ∀ (l : List GameInfo) (d : List (List Char × GameInfo)),
      (d.map Prod.fst).Nodup →
      ((l.foldl (fun d g =>
          if (cacheLookup g.appid d).isSome then d else d ++ [(g.appid, g)]) d).map
        Prod.fst).Nodup ∧
      ∀ k : List Char, (cacheLookup k d).isSome = true →
        cacheLookup k (l.foldl (fun d g =>
          if (cacheLookup g.appid d).isSome then d else d ++ [(g.appid, g)]) d) =
          cacheLookup k d := by
    intro l
    induction l with
    | nil => intro d hd; exact ⟨hd, fun k _ => rfl⟩
    | cons g gs ih =>
      intro d hd
      by_cases hg : (cacheLookup g.appid d).isSome
      · simp only [List.foldl_cons, if_pos hg]
        exact ih d hd
      · simp only [List.foldl_cons, if_neg hg]
        have hnone : cacheLookup g.appid d = none := by
          rcases hopt : cacheLookup g.appid d with _ | val
          · rfl
          · rw [hopt] at hg
            exact absurd rfl hg
        have hnodup : ((d ++ [(g.appid, g)]).map Prod.fst).Nodup := by
          simp only [List.map_append, List.map_cons, List.map_nil]
          rw [List.nodup_append]
          refine ⟨hd, List.nodup_singleton _, ?_⟩
          simpa using (cacheLookup_eq_none_iff g.appid d).mp hnone
        refine ⟨(ih _ hnodup).1, ?_⟩
        intro k hk
        rw [(ih _ hnodup).2 k (by rw [cacheLookup_append_of_isSome hk]; exact hk)]
        exact cacheLookup_append_of_isSome hk
  have h := step nonSteamGames (buildSteamCache steamGames)
    (keys_buildSteamCache_nodup steamGames)
  exact ⟨h.1, h.2⟩

/-- A non-Steam record colliding with gPortal's identifier. -/
def nsCollide : GameInfo :=
  { name := String.toList "Portal Shortcut", appid := String.toList "400",
    isSteamGame := false }

/-- C6 witness: the collision on identifier "400" leaves the Steam record
in place. -/
theorem c6_identifier_unique_witness :
    cacheLookup (String.toList "400") (buildGamesCache [gPortal] [nsCollide]) =
      cacheLookup (String.toList "400") (buildSteamCache [gPortal]) :=
  (c6_identifier_unique [gPortal] [nsCollide]).2 (String.toList "400") (by decide)

/-- The filesystem oracle: results of os.path.exists, os.listdir and
os.path.isdir.  An os.listdir that would raise OSError/PermissionError is
modelled as returning [], which is what the source's except-pass handlers
reduce that case to. -/
structure Disk where
  pathExists : List Char → Bool
  listdir : List Char → List (List Char)
  isdir : List Char → Bool

/-- The Windows path separator character (backslash, code 92). -/
def backslashChar : Char := Char.ofNat 92

/-- os.path.join for the relative Windows-style joins this code performs:
the left part, one backslash separator, the right part. -/
def joinPath (a b : List Char) : List Char := a ++ [backslashChar] ++ b

/-- os.path.basename on Windows: the segment after the last path
separator (backslash or forward slash). -/
def pathBasename (p : List Char) : List Char :=
  p.foldl (fun acc c => if c = backslashChar ∨ c = '/' then [] else acc ++ [c]) []

/-- The icon extensions probed by _find_game_icon (src/main.py line 165). -/
def iconExtensions : List (List Char) :=
  [String.toList ".ico", String.toList ".png", String.toList ".jpg",
   String.toList ".jpeg"]

/-- The icon_locations list of method 2 (src/main.py lines 177-186). -/
def iconLocations (appid installPath : List Char) : List (List Char) :=
  [appid ++ String.toList ".ico", appid ++ String.toList ".png",
   String.toList "icon.ico", String.toList "icon.png",
   String.toList "game.ico", String.toList "game.png",
   pathBasename installPath ++ String.toList ".ico",
   pathBasename installPath ++ String.toList ".png"]

/-- The cache_icon_names list of method 4 (src/main.py line 208). -/
def cacheIconNames (appid : List Char) : List (List Char) :=
  [String.toList "logo.png", String.toList "icon.png",
   String.toList "logo.jpg", String.toList "icon.jpg",
   appid ++ String.toList ".png", appid ++ String.toList ".jpg"]

/-- steam_path/appcache/librarycache/appid (src/main.py lines 204-205). -/
def appCacheDir (sp appid : List Char) : List Char :=
  joinPath (joinPath (joinPath sp (String.toList "appcache"))
    (String.toList "librarycache")) appid

/-- _find_game_icon (src/main.py lines 163-228): probe, in source order,
(1) appid-named images in the library directory, (2) the conventional
icon_locations names in the install directory, (3) the first listing of
the install directory that starts with appid and ends in an image
extension (taken from the listing, with no further existence check),
(4) the app's librarycache directory: conventional names directly, then
the same names one subdirectory down; empty string when nothing is found. -/
def findGameIcon (steamPath : Option (List Char)) (d : Disk)
    (appid libraryPath installPath : List Char) : List Char :=
  match (iconExtensions.map (fun ext => joinPath libraryPath (appid ++ ext))).find?
      d.pathExists with
  | some p => p
  | none =>
    match (if !installPath.isEmpty && d.pathExists installPath then
        ((iconLocations appid installPath).map
          (fun n => joinPath installPath n)).find? d.pathExists
      else none) with
    | some p => p
    | none =>
      match (if !installPath.isEmpty && d.pathExists installPath then
          ((d.listdir installPath).find? (fun f =>
            matchesAt appid f 0 &&
              iconExtensions.any (fun ext => ext.isSuffixOf f))).map
            (fun f => joinPath installPath f)
        else none) with
      | some p => p
      | none =>
        match steamPath with
        | none => []
        | some sp =>
          if d.pathExists (appCacheDir sp appid) then
            match ((cacheIconNames appid).map
                (fun n => joinPath (appCacheDir sp appid) n)).find? d.pathExists with
            | some p => p
            | none =>
              match (d.listdir (appCacheDir sp appid)).findSome? (fun sub =>
                  if d.isdir (joinPath (appCacheDir sp appid) sub) then
                    ((cacheIconNames appid).map
                      (fun n => joinPath (joinPath (appCacheDir sp appid) sub)
                        n)).find? d.pathExists
                  else none) with
              | some p => p
              | none => []
          else []

/-- Modelled from the spec (section 4.5, claim C8): a bounded-depth
recursive search (depth cap 2) for any image file below a directory. -/
def findAnyImage (d : Disk) : Nat → List Char → Option (List Char)
  | 0, _ => none
  | depth + 1, dir =>
    match (d.listdir dir).find? (fun f =>
        iconExtensions.any (fun ext => ext.isSuffixOf f)) with
    | some f => some (joinPath dir f)
    | none =>
      (d.listdir dir).findSome? (fun sub =>
        if d.isdir (joinPath dir sub) then findAnyImage d depth (joinPath dir sub)
        else none)

/-- Modelled from the spec (section 4.5): the probe order claim C8
describes: (1) identifier-named image in the library directory; (2)
conventional names in the install directory, then a depth-2 recursive
search for any image file; (3) any file in the library directory whose
name starts with the identifier; (4) the platform cache directory keyed
by identifier, including one level of subdirectories. -/
def iconResolverSpec (steamPath : Option (List Char)) (d : Disk)
    (appid libraryPath installPath : List Char) : List Char :=
  match (iconExtensions.map (fun ext => joinPath libraryPath (appid ++ ext))).find?
      d.pathExists with
  | some p => p
  | none =>
    match (if !installPath.isEmpty && d.pathExists installPath then
        match ((iconLocations appid installPath).map
            (fun n => joinPath installPath n)).find? d.pathExists with
        | some p => some p
        | none => findAnyImage d 2 installPath
      else none) with
    | some p => p
    | none =>
      match ((d.listdir libraryPath).find? (fun f => matchesAt appid f 0)).map
          (fun f => joinPath libraryPath f) with
      | some p => p
      | none =>
        match steamPath with
        | none => []
        | some sp =>
          if d.pathExists (appCacheDir sp appid) then
            match ((cacheIconNames appid).map
                (fun n => joinPath (appCacheDir sp appid) n)).find? d.pathExists with
            | some p => p
            | none =>
              match (d.listdir (appCacheDir sp appid)).findSome? (fun sub =>
                  if d.isdir (joinPath (appCacheDir sp appid) sub) then
                    ((cacheIconNames appid).map
                      (fun n => joinPath (joinPath (appCacheDir sp appid) sub)
                        n)).find? d.pathExists
                  else none) with
              | some p => p
              | none => []
          else []

/-- A disk whose only content is a file in the library directory whose
name starts with the identifier. -/
def c8Disk : Disk :=
  { pathExists := fun p =>
      p == joinPath (String.toList "L") (String.toList "123_logo.png"),
    listdir := fun p =>
      if p == String.toList "L" then [String.toList "123_logo.png"] else [],
    isdir := fun _ => false }

/-- C8: the claim is false on the code: the spec's probe (3) names the
library directory, but _find_game_icon only ever lists the install
directory (methods 2 and 3) and performs no recursive search; on a disk
whose only icon artifact is the identifier-named file in the library
directory, the resolver of the spec finds it while the code returns the
empty string. -/
theorem c8_counterexample :
    findGameIcon none c8Disk (String.toList "123") (String.toList "L") [] = [] ∧
    iconResolverSpec none c8Disk (String.toList "123") (String.toList "L") [] =
      joinPath (String.toList "L") (String.toList "123_logo.png") ∧
    c8Disk.pathExists
      (joinPath (String.toList "L") (String.toList "123_logo.png")) = true := by
  refine ⟨?_, ?_, ?_⟩ <;> rfl

lemma find?_const_false {α : Type} (l : List α) :
    l.find? (fun _ => false) = none :=
  List.find?_eq_none.mpr (fun x _ => by simp)

/-- A disk on which nothing exists. -/
def emptyDisk : Disk :=
  { pathExists := fun _ => false, listdir := fun _ => [], isdir := fun _ => false }

/-- A disk whose only content is the install directory I containing one
identifier-named image file. -/
def c8InstallDisk : Disk :=
  { pathExists := fun p => p == String.toList "I",
    listdir := fun p =>
      if p == String.toList "I" then [String.toList "123_logo.png"] else [],
    isdir := fun _ => false }

/-- A disk on which both a method-1 candidate (library 123.ico) and a
method-2 candidate (install icon.png) exist. -/
def c8BothDisk : Disk :=
  { pathExists := fun p =>
      p == joinPath (String.toList "L") (String.toList "123.ico") ||
      p == String.toList "I" ||
      p == joinPath (String.toList "I") (String.toList "icon.png"),
    listdir := fun _ => [], isdir := fun _ => false }

/-- C8 (amended): _find_game_icon probes, in order, identifier-named
images in the library directory, conventional names in the install
directory, identifier-prefixed image files listed in the install
directory (not the library directory, and with no recursive search), and
the platform cache directory including one subdirectory level; it
returns the empty string, raising nothing, when every probe fails. -/
theorem c8_amended :
    (∀ (sp : Option (List Char)) (appid lib inst : List Char),
      findGameIcon sp emptyDisk appid lib inst = []) ∧
    findGameIcon none c8InstallDisk (String.toList "123") (String.toList "L")
      (String.toList "I") =
      joinPath (String.toList "I") (String.toList "123_logo.png") ∧
    findGameIcon none c8BothDisk (String.toList "123") (String.toList "L")
      (String.toList "I") =
      joinPath (String.toList "L") (String.toList "123.ico") := by
  refine ⟨?_, rfl, rfl⟩
  intro sp appid lib inst
  cases sp <;> simp [findGameIcon, emptyDisk, find?_const_false]

/-- A parsed VDF value: a string leaf or a nested mapping, as produced by
vdf.loads in _find_library_paths. -/
inductive VdfValue where
  | str : List Char → VdfValue
  | node : List (List Char × VdfValue) → VdfValue

/-- Key lookup in a parsed VDF mapping (Python dict indexing). -/
def vdfLookup (k : List Char) : List (List Char × VdfValue) → Option VdfValue
  | [] => none
  | kv :: rest => if kv.1 = k then some kv.2 else vdfLookup k rest

/-- _find_library_paths (src/main.py lines 79-105).  The vdf.loads call is
external, so its outcome is an input: error models the parse raising (any
Exception), caught at line 102, leaving only the root steamapps path that
was already appended.  When the LibraryFolders value is a string, the
.items() call raises AttributeError, likewise caught.  Each candidate
entry is kept only when it is a string and its steamapps subdirectory
exists.  The function is total: no error reaches the caller. -/
def findLibraryPaths (steamPath : Option (List Char)) (d : Disk)
    (parseResult : Except Unit (List (List Char × VdfValue))) : List (List Char) :=
  match steamPath with
  | none => []
  | some sp =>
    if d.pathExists (joinPath sp (String.toList "steamapps")) then
      if d.pathExists (joinPath (joinPath sp (String.toList "steamapps"))
          (String.toList "libraryfolders.vdf")) then
        match parseResult with
        | Except.error _ => [joinPath sp (String.toList "steamapps")]
        | Except.ok libraries =>
          match vdfLookup (String.toList "LibraryFolders") libraries with
          | some (VdfValue.node folders) =>
            joinPath sp (String.toList "steamapps") ::
              folders.filterMap (fun kv =>
                match kv.2 with
                | VdfValue.str p =>
                  if d.pathExists (joinPath p (String.toList "steamapps")) then
                    some (joinPath p (String.toList "steamapps"))
                  else none
                | VdfValue.node _ => none)
          | some (VdfValue.str _) => [joinPath sp (String.toList "steamapps")]
          | none => [joinPath sp (String.toList "steamapps")]
      else [joinPath sp (String.toList "steamapps")]
    else []

/-- C9: when the root steamapps directory exists, a missing
libraryfolders.vdf, or one whose parse raises, both yield exactly the
root library path, and no error escapes (the embedding is a total
function). -/
theorem c9_library_discovery :
    ∀ (sp : List Char) (d : Disk)
      (parseResult : Except Unit (List (List Char × VdfValue))),
      d.pathExists (joinPath sp (String.toList "steamapps")) = true →
      (d.pathExists (joinPath (joinPath sp (String.toList "steamapps"))
          (String.toList "libraryfolders.vdf")) = false →
        findLibraryPaths (some sp) d parseResult =
          [joinPath sp (String.toList "steamapps")]) ∧
      (parseResult = Except.error () →
        findLibraryPaths (some sp) d parseResult =
          [joinPath sp (String.toList "steamapps")]) := by
  intro sp d parseResult hroot
  constructor
  · intro hmissing
    simp only [findLibraryPaths]
    rw [if_pos hroot, if_neg (by rw [hmissing]; exact Bool.false_ne_true)]
  · intro herr
    rw [herr]
    simp only [findLibraryPaths]
    rw [if_pos hroot]
    by_cases hvdf : d.pathExists (joinPath (joinPath sp (String.toList "steamapps"))
        (String.toList "libraryfolders.vdf")) = true
    · rw [if_pos hvdf]
    · rw [if_neg hvdf]

/-- A disk containing only the root steamapps directory. -/
def c9Disk : Disk :=
  { pathExists := fun p => p == joinPath (String.toList "S") (String.toList "steamapps"),
    listdir := fun _ => [], isdir := fun _ => false }

/-- C9 witness: a failing parse on the concrete c9Disk degrades to the
root library only. -/
theorem c9_library_discovery_witness :
    findLibraryPaths (some (String.toList "S")) c9Disk (Except.error ()) =
      [joinPath (String.toList "S") (String.toList "steamapps")] :=
  ((c9_library_discovery (String.toList "S") c9Disk (Except.error ())
    (by decide)).2) rfl

/-- The scan loop of _parse_shortcuts_binary again, identical branch for
branch to parseShortcutsLoop, except that each accepted tuple also
records how far past the end of the name field the executable-path
marker was found (exePos minus the end-of-name cursor).  The lemma
parseShortcutsLoop_eq_instr below proves it is the same parser. -/
def parseShortcutsLoopInstr (content : Bytes) : Nat → Nat → List (Bytes × Bytes × Nat)
  | 0, _ => []
  | fuel + 1, pos =>
    if pos + 100 < content.length then
      if byteSlice content pos 9 = appnamePattern then
        if 0 < content.getD (pos + 9) 0 ∧ content.getD (pos + 9) 0 < 100 then
          match findPattern content exePattern (pos + 10 + content.getD (pos + 9) 0) with
          | some exePos =>
            if exePos + 5 < content.length then
              if 0 < content.getD (exePos + 5) 0 ∧ content.getD (exePos + 5) 0 < 500 then
                (byteSlice content (pos + 10) (content.getD (pos + 9) 0),
                  byteSlice content (exePos + 6) (content.getD (exePos + 5) 0),
                  exePos - (pos + 10 + content.getD (pos + 9) 0)) ::
                  parseShortcutsLoopInstr content fuel (pos + 10 + content.getD (pos + 9) 0 + 1)
              else parseShortcutsLoopInstr content fuel (pos + 10 + content.getD (pos + 9) 0 + 1)
            else []
          | none => parseShortcutsLoopInstr content fuel (pos + 10 + content.getD (pos + 9) 0 + 1)
        else parseShortcutsLoopInstr content fuel (pos + 10)
      else parseShortcutsLoopInstr content fuel (pos + 1)
    else []

/-- The instrumented parser on a whole buffer. -/
def parseShortcutsBinaryInstr (content : Bytes) : List (Bytes × Bytes × Nat) :=
  parseShortcutsLoopInstr content (content.length + 1) 0

lemma parseShortcutsLoop_eq_instr (content : Bytes) :
    ∀ fuel pos, parseShortcutsLoop content fuel pos =
      (parseShortcutsLoopInstr content fuel pos).map (fun r => (r.1, r.2.1)) := by
  intro fuel
  induction fuel with
  | zero => intro pos; rfl
  | succ n ih =>
    intro pos
    simp only [parseShortcutsLoop, parseShortcutsLoopInstr]
    repeat' split
    all_goals simp [ih]

lemma parseShortcutsBinary_eq_instr (content : Bytes) :
    parseShortcutsBinary content =
      (parseShortcutsBinaryInstr content).map (fun r => (r.1, r.2.1)) :=
  parseShortcutsLoop_eq_instr content (content.length + 1) 0

/-- The tail of the C4 buffer family: the executable-path record and the
scan padding. -/
def bufC4tail : Bytes := exePattern ++ ([1, 66] ++ List.replicate 101 0)

/-- The C4 buffer family: a name record, then W + 1 padding bytes, then
the executable-path record.  The exe marker sits W + 1 bytes past the end
of the name field, so any claimed fixed lookahead window of size W is
exceeded. -/
def bufC4 (W : Nat) : Bytes :=
  (appnamePattern ++ [1, 65]) ++ (List.replicate (W + 1) 0 ++ bufC4tail)

lemma bufC4_length (W : Nat) : (bufC4 W).length = W + 120 := by
  simp only [bufC4, bufC4tail, appnamePattern, exePattern, List.length_append,
    List.length_replicate, List.length_cons, List.length_nil]
  omega

lemma getD_replicate_lt {n i : Nat} (a d : Nat) (h : i < n) :
    (List.replicate n a).getD i d = a := by
  rw [List.getD_eq_getElem?_getD, List.getElem?_replicate, if_pos h]
  rfl

lemma drop_replicate_append_add (n k : Nat) (a : Nat) (l : Bytes) :
    List.drop (n + k) (List.replicate n a ++ l) = List.drop k l := by
  induction n with
  | zero => simp
  | succ m ih =>
    rw [List.replicate_succ, Nat.succ_add, List.cons_append, List.drop_succ_cons]
    exact ih

lemma bufC4_getD9 (W : Nat) : (bufC4 W).getD 9 0 = 1 := by
  unfold bufC4
  rw [List.getD_append _ _ _ _ (by decide : (9:Nat) < (appnamePattern ++ [1, 65]).length)]
  rfl

lemma bufC4_getD_rep (W j : Nat) (h1 : 11 ≤ j) (h2 : j < W + 12) :
    (bufC4 W).getD j 0 = 0 := by
  unfold bufC4
  have hA : (appnamePattern ++ [1, 65] : Bytes).length = 11 := rfl
  rw [List.getD_append_right _ _ _ _ (by rw [hA]; omega)]
  rw [hA]
  rw [List.getD_append _ _ _ _ (by rw [List.length_replicate]; omega)]
  exact getD_replicate_lt 0 0 (by omega)

lemma bufC4_getD_tail (W t : Nat) :
    (bufC4 W).getD (W + 12 + t) 0 = bufC4tail.getD t 0 := by
  unfold bufC4
  have hA : (appnamePattern ++ [1, 65] : Bytes).length = 11 := rfl
  rw [List.getD_append_right _ _ _ _ (by rw [hA]; omega)]
  rw [hA]
  rw [List.getD_append_right _ _ _ _ (by rw [List.length_replicate]; omega)]
  rw [List.length_replicate]
  rw [show W + 12 + t - 11 - (W + 1) = t from by omega]

lemma bufC4_drop_tail (W : Nat) :
    List.drop (W + 12) (bufC4 W) = bufC4tail := by
  unfold bufC4
  rw [show W + 12 = (appnamePattern ++ [1, 65] : Bytes).length + (W + 1) from by
    rw [show (appnamePattern ++ [1, 65] : Bytes).length = 11 from rfl]; omega]
  rw [List.drop_append]
  rw [show W + 1 = (W + 1) + 0 from by omega, drop_replicate_append_add]
  rfl

lemma bufC4_slice0 (W : Nat) : byteSlice (bufC4 W) 0 9 = appnamePattern := by
  unfold byteSlice bufC4
  rw [List.drop_zero, List.append_assoc]
  show List.take appnamePattern.length (appnamePattern ++ _) = appnamePattern
  exact List.take_left _ _

lemma bufC4_slice10 (W : Nat) : byteSlice (bufC4 W) 10 1 = [65] := by
  unfold byteSlice bufC4
  rw [List.drop_append_of_le_length (by decide : (10:Nat) ≤ (appnamePattern ++ [1, 65]).length)]
  rw [show List.drop 10 (appnamePattern ++ [1, 65]) = ([65] : Bytes) from rfl]
  show List.take ([(65:Nat)]).length (([65] : Bytes) ++ _) = [65]
  exact List.take_left _ _

lemma bufC4_sliceExe (W : Nat) : byteSlice (bufC4 W) (W + 12) 5 = exePattern := by
  unfold byteSlice
  rw [bufC4_drop_tail]
  rfl

lemma bufC4_sliceExePath (W : Nat) :
    byteSlice (bufC4 W) (W + 12 + 6) 1 = [66] := by
  unfold byteSlice bufC4
  rw [show W + 12 + 6 = (appnamePattern ++ [1, 65] : Bytes).length + ((W + 1) + 6) from by
    rw [show (appnamePattern ++ [1, 65] : Bytes).length = 11 from rfl]; omega]
  rw [List.drop_append, drop_replicate_append_add]
  rfl

lemma slice_getD_of_eq {content pat : Bytes} {j n : Nat}
    (h : byteSlice content j n = pat) {i : Nat} (hi : i < pat.length) :
    content.getD (j + i) 0 = pat.getD i 0 := by
  have hlen : pat.length = min n (content.drop j).length := by
    rw [← h]
    exact List.length_take _ _
  have hin : i < n := lt_of_lt_of_le hi (by rw [hlen]; exact min_le_left _ _)
  have h2 : pat[i]? = content[j + i]? := by
    rw [← h]
    unfold byteSlice
    rw [List.getElem?_take, if_pos hin, List.getElem?_drop]
  rw [List.getD_eq_getElem?_getD, List.getD_eq_getElem?_getD, ← h2]

lemma not_slice_appname_of_ne {content : Bytes} {j : Nat}
    (h : content.getD j 0 ≠ 1 ∨ content.getD (j + 1) 0 ≠ 97) :
    byteSlice content j 9 ≠ appnamePattern := by
  intro hs
  have h0 := slice_getD_of_eq hs (by decide : (0:Nat) < appnamePattern.length)
  have h1 := slice_getD_of_eq hs (by decide : (1:Nat) < appnamePattern.length)
  simp only [Nat.add_zero] at h0
  rw [show appnamePattern.getD 0 0 = 1 from rfl] at h0
  rw [show appnamePattern.getD 1 0 = 97 from rfl] at h1
  rcases h with h | h
  · exact h h0
  · exact h h1

lemma not_slice_exe_of_ne {content : Bytes} {j : Nat}
    (h : content.getD j 0 ≠ 1) :
    byteSlice content j exePattern.length ≠ exePattern := by
  intro hs
  have h0 := slice_getD_of_eq hs (by decide : (0:Nat) < exePattern.length)
  simp only [Nat.add_zero] at h0
  rw [show exePattern.getD 0 0 = 1 from rfl] at h0
  exact h h0

lemma bufC4_noExe (W : Nat) : ∀ j, 11 ≤ j → j < 11 + (W + 1) →
    byteSlice (bufC4 W) j exePattern.length ≠ exePattern := by
  intro j h1 h2
  apply not_slice_exe_of_ne
  rw [bufC4_getD_rep W j h1 (by omega)]
  decide

lemma bufC4_noAppname (W : Nat) : ∀ j, 12 ≤ j → j < 12 + (W + 8) →
    byteSlice (bufC4 W) j 9 ≠ appnamePattern := by
  intro j h1 h2
  apply not_slice_appname_of_ne
  by_cases hc : j < W + 12
  · left
    rw [bufC4_getD_rep W j (by omega) hc]
    decide
  · obtain ⟨t, rfl, ht⟩ : ∃ t, j = W + 12 + t ∧ t < 8 :=
      ⟨j - (W + 12), by omega, by omega⟩
    interval_cases t
    · right
      rw [show W + 12 + 0 + 1 = W + 12 + 1 from by omega, bufC4_getD_tail]
      decide
    · left
      rw [bufC4_getD_tail]
      decide
    · left
      rw [bufC4_getD_tail]
      decide
    · left
      rw [bufC4_getD_tail]
      decide
    · left
      rw [bufC4_getD_tail]
      decide
    · right
      rw [show W + 12 + 5 + 1 = W + 12 + 6 from by omega, bufC4_getD_tail]
      decide
    · left
      rw [bufC4_getD_tail]
      decide
    · left
      rw [bufC4_getD_tail]
      decide

lemma findAux_skip (content pat : Bytes) :
    ∀ (k i fuel : Nat), 1 ≤ fuel →
    (∀ j, i ≤ j → j < i + k → byteSlice content j pat.length ≠ pat) →
    findPatternAux content pat (k + fuel) i = findPatternAux content pat fuel (i + k) := by
  intro k
  induction k with
  | zero =>
    intro i fuel _ _
    rw [Nat.zero_add, Nat.add_zero]
  | succ n ih =>
    intro i fuel hfuel hnone
    have e1 : (n + 1) + fuel = (n + fuel) + 1 := by omega
    rw [e1]
    have hstep : findPatternAux content pat ((n + fuel) + 1) i =
        findPatternAux content pat (n + fuel) (i + 1) := by
      by_cases hg : i + pat.length ≤ content.length
      · simp only [findPatternAux]
        rw [if_pos hg, if_neg (hnone i (le_refl i) (by omega))]
      · have hL : findPatternAux content pat ((n + fuel) + 1) i = none := by
          simp only [findPatternAux]
          rw [if_neg hg]
        have hR : findPatternAux content pat (n + fuel) (i + 1) = none := by
          cases hnf : n + fuel with
          | zero => rfl
          | succ m =>
            simp only [findPatternAux]
            rw [if_neg (by omega)]
        rw [hL, hR]
    rw [hstep, ih (i + 1) fuel hfuel (fun j hj1 hj2 => hnone j (by omega) (by omega))]
    rw [show i + 1 + n = i + (n + 1) from by omega]

lemma loopInstr_skip (content : Bytes) :
    ∀ (k pos fuel : Nat), 1 ≤ fuel →
    (∀ j, pos ≤ j → j < pos + k → byteSlice content j 9 ≠ appnamePattern) →
    parseShortcutsLoopInstr content (k + fuel) pos =
      parseShortcutsLoopInstr content fuel (pos + k) := by
  intro k
  induction k with
  | zero =>
    intro pos fuel _ _
    rw [Nat.zero_add, Nat.add_zero]
  | succ n ih =>
    intro pos fuel hfuel hnone
    have e1 : (n + 1) + fuel = (n + fuel) + 1 := by omega
    rw [e1]
    have hstep : parseShortcutsLoopInstr content ((n + fuel) + 1) pos =
        parseShortcutsLoopInstr content (n + fuel) (pos + 1) := by
      by_cases hg : pos + 100 < content.length
      · simp only [parseShortcutsLoopInstr]
        rw [if_pos hg, if_neg (hnone pos (le_refl pos) (by omega))]
      · have hL : parseShortcutsLoopInstr content ((n + fuel) + 1) pos = [] := by
          simp only [parseShortcutsLoopInstr]
          rw [if_neg hg]
        have hR : parseShortcutsLoopInstr content (n + fuel) (pos + 1) = [] := by
          cases hnf : n + fuel with
          | zero => rfl
          | succ m =>
            simp only [parseShortcutsLoopInstr]
            rw [if_neg (by omega)]
        rw [hL, hR]
    rw [hstep, ih (pos + 1) fuel hfuel (fun j hj1 hj2 => hnone j (by omega) (by omega))]
    rw [show pos + 1 + n = pos + (n + 1) from by omega]

lemma c4find (W : Nat) : findPattern (bufC4 W) exePattern 11 = some (W + 12) := by
  unfold findPattern
  rw [bufC4_length]
  rw [show W + 120 + 1 - 11 = (W + 1) + 109 from by omega]
  rw [findAux_skip (bufC4 W) exePattern (W + 1) 11 109 (by omega) (bufC4_noExe W)]
  rw [show 11 + (W + 1) = W + 12 from by omega]
  show findPatternAux (bufC4 W) exePattern (108 + 1) (W + 12) = some (W + 12)
  simp only [findPatternAux]
  rw [show exePattern.length = 5 from rfl]
  rw [bufC4_length]
  rw [if_pos (show W + 12 + 5 ≤ W + 120 from by omega)]
  rw [if_pos (bufC4_sliceExe W)]

lemma loopInstr_accept (content : Bytes) (fuel pos exePos : Nat)
    (hg : pos + 100 < content.length)
    (hs : byteSlice content pos 9 = appnamePattern)
    (h1 : content.getD (pos + 9) 0 = 1)
    (hf : findPattern content exePattern (pos + 10 + 1) = some exePos)
    (he : exePos + 5 < content.length)
    (h2 : content.getD (exePos + 5) 0 = 1) :
    parseShortcutsLoopInstr content (fuel + 1) pos =
      (byteSlice content (pos + 10) 1, byteSlice content (exePos + 6) 1,
        exePos - (pos + 10 + 1)) ::
      parseShortcutsLoopInstr content fuel (pos + 10 + 1 + 1) := by
  simp only [parseShortcutsLoopInstr]
  rw [if_pos hg, if_pos hs, h1]
  rw [if_pos (show 0 < 1 ∧ 1 < 100 from by omega)]
  simp only [hf]
  rw [if_pos he, h2]
  rw [if_pos (show 0 < 1 ∧ 1 < 500 from by omega)]

lemma loopInstr_stop (content : Bytes) (fuel pos : Nat)
    (h : ¬ (pos + 100 < content.length)) :
    parseShortcutsLoopInstr content (fuel + 1) pos = [] := by
  simp only [parseShortcutsLoopInstr]
  rw [if_neg h]

lemma c4BufEval (W : Nat) :
    parseShortcutsBinaryInstr (bufC4 W) = [([65], ([66], W + 1))] := by
  unfold parseShortcutsBinaryInstr
  rw [bufC4_length]
  rw [loopInstr_accept (bufC4 W) (W + 120) 0 (W + 12)
    (by rw [bufC4_length]; omega)
    (bufC4_slice0 W)
    (show (bufC4 W).getD (0 + 9) 0 = 1 from bufC4_getD9 W)
    (show findPattern (bufC4 W) exePattern (0 + 10 + 1) = some (W + 12) from c4find W)
    (by rw [bufC4_length]; omega)
    (by rw [bufC4_getD_tail W 5]; rfl)]
  rw [show (0:Nat) + 10 = 10 from rfl]
  rw [bufC4_slice10 W, bufC4_sliceExePath W]
  rw [show W + 12 - (10 + 1) = W + 1 from by omega]
  rw [show (10:Nat) + 1 + 1 = 12 from rfl]
  rw [show W + 120 = (W + 8) + (111 + 1) from by omega]
  rw [loopInstr_skip (bufC4 W) (W + 8) 12 (111 + 1) (by omega) (bufC4_noAppname W)]
  rw [show 12 + (W + 8) = W + 20 from by omega]
  rw [loopInstr_stop (bufC4 W) 111 (W + 20) (by rw [bufC4_length]; omega)]

/-- C4: the claim is false on the code: content.find(exe_pattern, pos)
(src/main.py line 381) searches the entire remainder of the buffer, so no
fixed window size W bounds how far past the end of the name field the
executable-path marker may be found: for every W, the buffer bufC4 W
yields an accepted pair whose marker distance is W + 1. -/
theorem c4_counterexample :
    ¬ ∃ W : Nat, ∀ (content : Bytes) (r : Bytes × Bytes × Nat),
      r ∈ parseShortcutsBinaryInstr content → r.2.2 ≤ W := by
  rintro ⟨W, h⟩
  have hmem : ([65], ([66], W + 1)) ∈ parseShortcutsBinaryInstr (bufC4 W) := by
    rw [c4BufEval W]
    exact List.mem_singleton.mpr rfl
  have h2 : W + 1 ≤ W := h (bufC4 W) ([65], ([66], W + 1)) hmem
  omega

/-- C4 (amended): after extracting a name, the parser searches the entire
unbounded remainder of the buffer for the executable-path marker: for
every candidate window size W there is a buffer on which a pair is formed
with the marker W + 1 bytes past the end of the name field. -/
theorem c4_amended :
    ∀ W : Nat,
      parseShortcutsBinaryInstr (bufC4 W) = [([65], ([66], W + 1))] ∧
      parseShortcutsBinary (bufC4 W) = [([65], [66])] := by
  intro W
  refine ⟨c4BufEval W, ?_⟩
  rw [parseShortcutsBinary_eq_instr, c4BufEval W]
  rfl
